import Mathlib

/-!
Shallow embedding of the go-mysql-worker batch-insert pipeline (src/main.go)
and proofs of the specification's testable properties.

The worker's inner accumulation loop (main.go, `worker`, lines 140-164) is a
deterministic function of the sequence of `select` outcomes it observes: either
the cycle timer fires, or a record (possibly the zero value of a closed
channel) is received from the jobs channel.  We model that sequence as a list
of `Event`s and the loop body as a step function on an explicit cycle state.
-/

namespace GoMysqlWorker

/-- The constant `sqlBatchSize` from main.go (batch bound B). -/
def sqlBatchSize : Nat := 8

/-- `generateQuestionsMark` from main.go: a slice of `n` question marks. -/
def generateQuestionsMark (n : Nat) : List String :=
  List.replicate n "?"

/-- The placeholder group body computed in `StartWorkers`:
`strings.Join(generateQuestionsMark(len(dataHeaders)), ",")`. -/
def placeholdersOf (headers : List String) : String :=
  String.intercalate "," (generateQuestionsMark headers.length)

/-- The insert-statement prefix built in `StartWorkers` via `fmt.Sprintf`:
`INSERT INTO domain (<columns>) VALUES (<placeholders>)`. -/
def queryOf (headers : List String) : String :=
  "INSERT INTO domain (" ++ String.intercalate "," headers ++ ") VALUES ("
    ++ placeholdersOf headers ++ ")"

/-- One outcome of the worker's inner `select`: the cycle timer fires, or a
row is delivered on the jobs channel (a closed channel delivers `[]`, the
zero value of `[]string`). -/
inductive Event where
  | timer : Event
  | job (row : List String) : Event
deriving DecidableEq

/-- The worker's per-cycle local state: `counter`, the statement string `q`,
the flattened `values`, and the `timeout` flag (main.go lines 141-146). -/
structure CycleState where
  counter : Nat
  q : String
  values : List String
  timeout : Bool
deriving DecidableEq

/-- One iteration of the worker's inner loop body (main.go lines 148-160):
a timer event sets the timeout flag; a received row is appended to the
values only when non-empty, growing the statement by one `, (<group>)`
fragment when it is not the first row of the cycle. -/
def cycleStep (p : String) (s : CycleState) : Event → CycleState
  | Event.timer => { s with timeout := true }
  | Event.job row =>
    if 0 < row.length then
      { counter := s.counter + 1,
        q := if 0 < s.counter then s.q ++ ", (" ++ p ++ ")" else s.q,
        values := s.values ++ row,
        timeout := s.timeout }
    else s

/-- The inner loop's exit test (main.go line 161):
`counter >= sqlBatchSize || timeout`. -/
def cycleDone (s : CycleState) : Bool :=
  decide (sqlBatchSize ≤ s.counter) || s.timeout

/-- Run the inner accumulation loop over a list of select outcomes, returning
the state at the `break` (or `none` when the listed events are exhausted
before the loop exits — in the program the timer always eventually fires, so
a run of the real loop always corresponds to a list ending the cycle). -/
def runCycleAux (p : String) (s : CycleState) : List Event → Option CycleState
  | [] => none
  | e :: es =>
    let s1 := cycleStep p s e
    if cycleDone s1 then some s1 else runCycleAux p s1 es

/-- The state at the top of each outer cycle (main.go lines 141-146):
counter 0, the cloned query prefix, no values, timeout unset. -/
def initCycle (query : String) : CycleState :=
  { counter := 0, q := query, values := [], timeout := false }

/-- One full accumulation cycle of a worker whose prefix and placeholder
group were derived from `headers` by the dispatcher. -/
def runCycle (headers : List String) (events : List Event) : Option CycleState :=
  runCycleAux (placeholdersOf headers) (initCycle (queryOf headers)) events

/-- The flush decision after the inner loop (main.go line 168): execute
`q` with `values` only when `len(values) > 0`. -/
def flushOf (s : CycleState) : Option (String × List String) :=
  if s.values = [] then none else some (s.q, s.values)

/-- Decidable form of: every job event in the list carries a row that is
either empty or has exactly `h` fields. -/
def rowsHaveLen (h : Nat) (events : List Event) : Bool :=
  events.all (fun e => match e with
    | Event.job row => row.isEmpty || decide (row.length = h)
    | Event.timer => true)

/-- Decidable form of: every job event in the list carries the empty row
(what a closed jobs channel delivers). -/
def emptyJobsOnly (events : List Event) : Bool :=
  events.all (fun e => match e with
    | Event.job row => row.isEmpty
    | Event.timer => true)

/-- Decidable form of: the list holds no timer event. -/
def noTimer (events : List Event) : Bool :=
  events.all (fun e => match e with
    | Event.timer => false
    | Event.job _ => true)

/-- An event that the worker counts as a record: a job with a non-empty row. -/
def isRecord (e : Event) : Bool :=
  match e with
  | Event.job row => decide (0 < row.length)
  | Event.timer => false

/-- `K - 1` copies of a fragment, appended in sequence — the shape in which
the worker grows the statement after the first row. -/
def fragRepeat (frag : String) : Nat → String
  | 0 => ""
  | n + 1 => frag ++ fragRepeat frag n

/-! ### String helper lemmas -/

theorem fragRepeat_append (f : String) (n : Nat) :
    fragRepeat f n ++ f = f ++ fragRepeat f n := by
  induction n with
  | zero => simp [fragRepeat]
  | succ n ih =>
    show (f ++ fragRepeat f n) ++ f = f ++ (f ++ fragRepeat f n)
    rw [String.append_assoc, ih]

theorem fragRepeat_succ_right (f : String) (n : Nat) :
    fragRepeat f n ++ f = fragRepeat f (n + 1) := by
  rw [fragRepeat_append]; rfl

theorem intercalate_go_replicate (s g : String) (n : Nat) :
    ∀ acc : String,
      String.intercalate.go acc s (List.replicate n g) = acc ++ fragRepeat (s ++ g) n := by
  induction n with
  | zero => intro acc; simp [String.intercalate.go, fragRepeat]
  | succ n ih =>
    intro acc
    rw [List.replicate_succ]
    show String.intercalate.go (acc ++ s ++ g) s (List.replicate n g) = _
    rw [ih]
    show acc ++ s ++ g ++ fragRepeat (s ++ g) n = acc ++ ((s ++ g) ++ fragRepeat (s ++ g) n)
    simp [String.append_assoc]

theorem intercalate_replicate_succ (s g : String) (n : Nat) :
    String.intercalate s (List.replicate (n + 1) g) = g ++ fragRepeat (s ++ g) n := by
  rw [List.replicate_succ]
  show String.intercalate.go g s (List.replicate n g) = _
  exact intercalate_go_replicate s g n g

theorem queryOf_split (headers : List String) :
    queryOf headers = ("INSERT INTO domain (" ++ String.intercalate "," headers ++ ") VALUES ")
      ++ ("(" ++ placeholdersOf headers ++ ")") := by
  unfold queryOf
  simp only [← String.append_assoc]
  rw [String.append_assoc ("INSERT INTO domain (" ++ String.intercalate "," headers)
    ") VALUES " "("]
  rfl

theorem frag_eq_sep_group (p : String) :
    (", (" ++ p ++ ")" : String) = ", " ++ ("(" ++ p ++ ")") := by
  simp only [← String.append_assoc]
  rw [String.append_assoc ", " "(" p]
  rfl

/-! ### Generic lemmas about the inner accumulation loop -/

theorem runCycleAux_done (p : String) (events : List Event) :
    ∀ s0 s : CycleState, runCycleAux p s0 events = some s → cycleDone s = true := by
  induction events with
  | nil => intro s0 s h; simp [runCycleAux] at h
  | cons e es ih =>
    intro s0 s h
    simp only [runCycleAux] at h
    split at h
    · cases h; assumption
    · exact ih _ _ h

theorem runCycleAux_inv (P : CycleState → Prop) (E : Event → Prop) (p : String)
    (events : List Event)
    (hstep : ∀ s e, E e → P s → P (cycleStep p s e))
    (hE : ∀ e ∈ events, E e) :
    ∀ s0 s, P s0 → runCycleAux p s0 events = some s → P s := by
  induction events with
  | nil => intro s0 s _ h; simp [runCycleAux] at h
  | cons e es ih =>
    intro s0 s h0 h
    simp only [runCycleAux] at h
    have he : E e := hE e (List.mem_cons_self e es)
    have hE' : ∀ e' ∈ es, E e' := fun e' h' => hE e' (List.mem_cons_of_mem e h')
    split at h
    · cases h; exact hstep _ _ he h0
    · exact ih hE' _ _ (hstep _ _ he h0) h

theorem cycleStep_counter_le (p : String) (s : CycleState) (e : Event) :
    (cycleStep p s e).counter ≤ s.counter + 1 := by
  cases e with
  | timer => simp [cycleStep]
  | job row =>
    simp only [cycleStep]
    split
    · simp
    · simp

theorem cycleStep_timeout_job (p : String) (s : CycleState) (row : List String) :
    (cycleStep p s (Event.job row)).timeout = s.timeout := by
  simp only [cycleStep]
  split <;> simp

theorem runCycleAux_counter_le (p : String) (events : List Event) :
    ∀ s0 s, s0.counter < sqlBatchSize → runCycleAux p s0 events = some s →
      s.counter ≤ sqlBatchSize := by
  induction events with
  | nil => intro s0 s _ h; simp [runCycleAux] at h
  | cons e es ih =>
    intro s0 s hlt h
    simp only [runCycleAux] at h
    have hle := cycleStep_counter_le p s0 e
    split at h
    · cases h; omega
    · rename_i hnd
      apply ih _ _ _ h
      simp [cycleDone] at hnd
      omega

/-- The central shape invariant of one accumulation cycle: when every
received record carries exactly `len(headers)` fields, the flattened values
have length `len(headers) × counter` and the statement is the precomputed
prefix followed by `counter - 1` appended fragments. -/
theorem batch_invariant (headers : List String) (events : List Event)
    (hlen : rowsHaveLen headers.length events = true) :
    ∀ s, runCycle headers events = some s →
      s.values.length = headers.length * s.counter ∧
      s.q = queryOf headers
        ++ fragRepeat (", (" ++ placeholdersOf headers ++ ")") (s.counter - 1) := by
  intro s h
  refine runCycleAux_inv
    (fun s => s.values.length = headers.length * s.counter ∧
      s.q = queryOf headers
        ++ fragRepeat (", (" ++ placeholdersOf headers ++ ")") (s.counter - 1))
    (fun e => match e with
      | Event.job row => row = [] ∨ row.length = headers.length
      | Event.timer => True)
    (placeholdersOf headers) events ?_ ?_ (initCycle (queryOf headers)) s ?_ h
  · intro t e he hP
    cases e with
    | timer => simpa [cycleStep] using hP
    | job row =>
      rcases he with hemp | hlen'
      · simp [cycleStep, hemp, hP.1, hP.2]
      · simp only [cycleStep]
        split
        · constructor
          · simp [hP.1, hlen', Nat.mul_succ]
          · simp only [Nat.add_sub_cancel]
            split
            · rename_i hcpos
              have hassoc : t.q ++ ", (" ++ placeholdersOf headers ++ ")"
                  = t.q ++ (", (" ++ placeholdersOf headers ++ ")") := by
                simp only [String.append_assoc]
              rw [hassoc, hP.2, String.append_assoc, fragRepeat_succ_right]
              have hc1 : t.counter - 1 + 1 = t.counter := by omega
              rw [hc1]
            · rename_i hczero
              have hc0 : t.counter = 0 := by omega
              rw [hP.2, hc0]
        · exact hP
  · intro e he
    have := (List.all_eq_true.mp hlen) e he
    cases e with
    | timer => trivial
    | job row =>
      simp only [Bool.or_eq_true, List.isEmpty_iff, decide_eq_true_eq] at this
      exact this
  · constructor
    · simp [initCycle]
    · simp [initCycle, fragRepeat]

/-- The inner loop reaches the size bound: if, among the select outcomes
still to come, `sqlBatchSize` records (net of the already accumulated
counter) arrive before any timer event, the loop breaks with exactly
`sqlBatchSize` accumulated records and no timeout. -/
theorem runCycleAux_reaches (p : String) :
    ∀ (pre post : List Event) (s0 : CycleState),
      s0.timeout = false → s0.counter < sqlBatchSize →
      noTimer pre = true →
      sqlBatchSize ≤ s0.counter + pre.countP isRecord →
      ∃ s, runCycleAux p s0 (pre ++ post) = some s ∧
        s.counter = sqlBatchSize ∧ s.timeout = false := by
  intro pre
  induction pre with
  | nil =>
    intro post s0 ht hc _ hcount
    simp [List.countP_nil] at hcount
    omega
  | cons e es ih =>
    intro post s0 ht hc hnt hcount
    cases e with
    | timer => simp [noTimer] at hnt
    | job row =>
      have hnt' : noTimer es = true := by
        simp only [noTimer, List.all_cons, Bool.and_eq_true] at hnt
        exact hnt.2
      simp only [List.cons_append, runCycleAux]
      by_cases hrow : 0 < row.length
      · have hs1c : (cycleStep p s0 (Event.job row)).counter = s0.counter + 1 := by
          simp [cycleStep, hrow]
        have hs1t : (cycleStep p s0 (Event.job row)).timeout = false := by
          rw [cycleStep_timeout_job]; exact ht
        have hcnt : (Event.job row :: es).countP isRecord = es.countP isRecord + 1 := by
          rw [List.countP_cons_of_pos]
          simp [isRecord, hrow]
        by_cases hdone : s0.counter + 1 = sqlBatchSize
        · have : cycleDone (cycleStep p s0 (Event.job row)) = true := by
            simp [cycleDone, hs1c, hdone]
          rw [if_pos this]
          exact ⟨_, rfl, by rw [hs1c, hdone], hs1t⟩
        · have hlt : s0.counter + 1 < sqlBatchSize := by omega
          have : cycleDone (cycleStep p s0 (Event.job row)) = false := by
            simp only [cycleDone, hs1c, hs1t, Bool.or_false, decide_eq_false_iff_not]
            omega
          rw [this]
          simp only [Bool.false_eq_true, if_false]
          exact ih post _ hs1t (by omega) hnt' (by rw [hcnt] at hcount; omega)
      · have hs1 : cycleStep p s0 (Event.job row) = s0 := by
          simp [cycleStep, hrow]
        have hcnt : (Event.job row :: es).countP isRecord = es.countP isRecord := by
          rw [List.countP_cons_of_neg]
          simp [isRecord, hrow]
        rw [hs1]
        have : cycleDone s0 = false := by
          simp only [cycleDone, ht, Bool.or_false, decide_eq_false_iff_not]
          omega
        rw [this]
        simp only [Bool.false_eq_true, if_false]
        exact ih post s0 ht hc hnt' (by rw [hcnt] at hcount; omega)

/-- C1: For every completed accumulation cycle whose received records all
have exactly `len(Header)` fields, a batch of `K = counter` records with
`1 ≤ K` (and necessarily `K ≤ sqlBatchSize`) yields a parameter vector of
length `len(Header) × K`, and an insert template equal to the precomputed
prefix (which carries one placeholder group) followed by `K - 1` appended
`, (<group>)` fragments — equivalently, the column prefix followed by
exactly `K` placeholder groups. -/
theorem c1_batch_template_shape (headers : List String) (events : List Event)
    (s : CycleState)
    (hlen : rowsHaveLen headers.length events = true)
    (hrun : runCycle headers events = some s)
    (hpos : 1 ≤ s.counter) :
    s.counter ≤ sqlBatchSize ∧
    s.values.length = headers.length * s.counter ∧
    s.q = queryOf headers
      ++ fragRepeat (", (" ++ placeholdersOf headers ++ ")") (s.counter - 1) ∧
    s.q = ("INSERT INTO domain (" ++ String.intercalate "," headers ++ ") VALUES ")
      ++ String.intercalate ", "
          (List.replicate s.counter ("(" ++ placeholdersOf headers ++ ")")) := by
  obtain ⟨hv, hq⟩ := batch_invariant headers events hlen s hrun
  have hle : s.counter ≤ sqlBatchSize :=
    runCycleAux_counter_le _ events _ s (by simp [initCycle, sqlBatchSize]) hrun
  refine ⟨hle, hv, hq, ?_⟩
  obtain ⟨m, hm⟩ : ∃ m, s.counter = m + 1 := ⟨s.counter - 1, by omega⟩
  rw [hm] at hq ⊢
  simp only [Nat.add_sub_cancel] at hq
  rw [intercalate_replicate_succ, hq, queryOf_split, frag_eq_sep_group]
  simp [String.append_assoc]

theorem c1_batch_template_shape_witness :
    (CycleState.mk 1 (queryOf ["a","b"]) ["1","2"] true).counter ≤ sqlBatchSize ∧
    (CycleState.mk 1 (queryOf ["a","b"]) ["1","2"] true).values.length
      = (["a","b"] : List String).length
        * (CycleState.mk 1 (queryOf ["a","b"]) ["1","2"] true).counter ∧
    (CycleState.mk 1 (queryOf ["a","b"]) ["1","2"] true).q = queryOf ["a","b"]
      ++ fragRepeat (", (" ++ placeholdersOf ["a","b"] ++ ")")
          ((CycleState.mk 1 (queryOf ["a","b"]) ["1","2"] true).counter - 1) ∧
    (CycleState.mk 1 (queryOf ["a","b"]) ["1","2"] true).q
      = ("INSERT INTO domain (" ++ String.intercalate "," ["a","b"] ++ ") VALUES ")
        ++ String.intercalate ", "
            (List.replicate (CycleState.mk 1 (queryOf ["a","b"]) ["1","2"] true).counter
              ("(" ++ placeholdersOf ["a","b"] ++ ")")) :=
  c1_batch_template_shape ["a","b"] [Event.job ["1","2"], Event.timer]
    (CycleState.mk 1 (queryOf ["a","b"]) ["1","2"] true)
    (by decide) (by decide) (by decide)

/-- C3: The accumulation cycle ends at whichever bound is reached first.
When `sqlBatchSize` records arrive before any timer event (a record-only
prefix of the select outcomes), the cycle exits by the size bound with
exactly `sqlBatchSize` records and the timeout flag unset — the timer never
preempts an already-reached size bound; moreover no completed cycle ever
holds more than `sqlBatchSize` records. -/
theorem c3_size_bound_first (headers : List String) (pre post events2 : List Event)
    (s2 : CycleState)
    (hnt : noTimer pre = true)
    (hcount : pre.countP isRecord = sqlBatchSize)
    (hrun2 : runCycle headers events2 = some s2) :
    (runCycle headers (pre ++ post)).map (fun s => (s.counter, s.timeout))
      = some (sqlBatchSize, false) ∧
    s2.counter ≤ sqlBatchSize := by
  constructor
  · obtain ⟨s, hs, hc, ht⟩ := runCycleAux_reaches (placeholdersOf headers) pre post
      (initCycle (queryOf headers)) rfl (by simp [initCycle, sqlBatchSize]) hnt
      (by simp [initCycle]; omega)
    rw [runCycle, hs]
    simp [hc, ht]
  · exact runCycleAux_counter_le _ events2 _ s2 (by simp [initCycle, sqlBatchSize]) hrun2

theorem c3_size_bound_first_witness :
    (runCycle ["a"] (List.replicate 8 (Event.job ["x"]) ++ [Event.timer])).map
      (fun s => (s.counter, s.timeout)) = some (sqlBatchSize, false) ∧
    (CycleState.mk 0 (queryOf ["a"]) [] true).counter ≤ sqlBatchSize :=
  c3_size_bound_first ["a"] (List.replicate 8 (Event.job ["x"])) [Event.timer]
    [Event.timer] (CycleState.mk 0 (queryOf ["a"]) [] true)
    (by decide) (by decide) (by decide)

/-- C6: When a cycle completes with zero accumulated records, it completed
by timer expiry and the worker issues no store execute call for it: the
flush guard `len(values) > 0` yields no statement. -/
theorem c6_empty_batch_no_flush (headers : List String) (events : List Event)
    (s : CycleState)
    (hrun : runCycle headers events = some s)
    (h0 : s.counter = 0) :
    s.timeout = true ∧ flushOf s = none := by
  have hval : s.counter = 0 → s.values = [] := by
    refine runCycleAux_inv (fun t => t.counter = 0 → t.values = []) (fun _ => True)
      (placeholdersOf headers) events ?_ (fun _ _ => trivial)
      (initCycle (queryOf headers)) s ?_ hrun
    · intro t e _ hP
      cases e with
      | timer => simpa [cycleStep] using hP
      | job row =>
        simp only [cycleStep]
        split
        · intro hc; simp at hc
        · exact hP
    · intro _; simp [initCycle]
  have hdone := runCycleAux_done (placeholdersOf headers) events _ s hrun
  have ht : s.timeout = true := by
    simp [cycleDone, h0, sqlBatchSize] at hdone
    exact hdone
  exact ⟨ht, by simp [flushOf, hval h0]⟩

theorem c6_empty_batch_no_flush_witness :
    (CycleState.mk 0 (queryOf ["a"]) [] true).timeout = true ∧
    flushOf (CycleState.mk 0 (queryOf ["a"]) [] true) = none :=
  c6_empty_batch_no_flush ["a"] [Event.timer] (CycleState.mk 0 (queryOf ["a"]) [] true)
    (by decide) (by decide)

/-- C9: A received record with zero fields — the zero value a closed jobs
channel yields — leaves the whole cycle state (batch counter, parameter
vector, insert template, timeout flag) unchanged, and a cycle whose job
events are all empty can only complete by timer expiry with an untouched
batch, never by the size bound. -/
theorem c9_empty_record_frame (p : String) (st : CycleState) (headers : List String)
    (events : List Event) (s : CycleState)
    (hempty : emptyJobsOnly events = true)
    (hrun : runCycle headers events = some s) :
    cycleStep p st (Event.job []) = st ∧
    s.counter = 0 ∧ s.values = [] ∧ s.q = queryOf headers ∧ s.timeout = true := by
  have hframe : cycleStep p st (Event.job []) = st := by simp [cycleStep]
  have hP : s.counter = 0 ∧ s.values = [] ∧ s.q = queryOf headers := by
    refine runCycleAux_inv
      (fun t => t.counter = 0 ∧ t.values = [] ∧ t.q = queryOf headers)
      (fun e => match e with
        | Event.job row => row = []
        | Event.timer => True)
      (placeholdersOf headers) events ?_ ?_ (initCycle (queryOf headers)) s ?_ hrun
    · intro t e he hP
      cases e with
      | timer => simpa [cycleStep] using hP
      | job row =>
        have : row = [] := he
        simp [cycleStep, this, hP.1, hP.2.1, hP.2.2]
    · intro e he
      have := (List.all_eq_true.mp hempty) e he
      cases e with
      | timer => trivial
      | job row => simpa [List.isEmpty_iff] using this
    · simp [initCycle]
  have hdone := runCycleAux_done (placeholdersOf headers) events _ s hrun
  have ht : s.timeout = true := by
    simp [cycleDone, hP.1, sqlBatchSize] at hdone
    exact hdone
  exact ⟨hframe, hP.1, hP.2.1, hP.2.2, ht⟩

theorem c9_empty_record_frame_witness :
    cycleStep "?" (CycleState.mk 0 "Q" [] false) (Event.job [])
      = CycleState.mk 0 "Q" [] false ∧
    (CycleState.mk 0 (queryOf ["a"]) [] true).counter = 0 ∧
    (CycleState.mk 0 (queryOf ["a"]) [] true).values = [] ∧
    (CycleState.mk 0 (queryOf ["a"]) [] true).q = queryOf ["a"] ∧
    (CycleState.mk 0 (queryOf ["a"]) [] true).timeout = true :=
  c9_empty_record_frame "?" (CycleState.mk 0 "Q" [] false) ["a"]
    [Event.job [], Event.timer] (CycleState.mk 0 (queryOf ["a"]) [] true)
    (by decide) (by decide)

/-! ### The worker's outer loop, the fatal-abort process semantics, the
producer, the header read, and the shutdown protocol -/

/-- The worker's outer loop (main.go lines 140-185) over a list of scheduled
cycles. Each entry holds the cycle's select outcomes and whether a quit
token is available at the non-blocking check after the cycle's flush. The
result collects the flushes issued, `some` when the worker exited via a quit
token, `none` when the modelled schedule ran out first. -/
def runWorkerAux (headers : List String) :
    List (List Event × Bool) → List (String × List String)
      → Option (List (String × List String))
  | [], _ => none
  | (es, quitAvail) :: rest, acc =>
    match runCycle headers es with
    | none => none
    | some s =>
      let acc1 := acc ++ (flushOf s).toList
      if quitAvail then some acc1 else runWorkerAux headers rest acc1

/-- A worker's whole execution, starting with no flushes issued. -/
def runWorker (headers : List String) (cycles : List (List Event × Bool)) :
    Option (List (String × List String)) :=
  runWorkerAux headers cycles []

/-- The fatal-abort process semantics of the pool (main.go lines 168-173):
each scheduled entry is one worker's full cycle, tagged with the worker
index; the cycle's events are closed by the always-firing cycle timer. The
cycle's flush (when non-empty) calls the store once; a failing call hits
`log.Fatal`, killing the process: no later scheduled cycle of any worker
runs and no later flush occurs. The result is the trace of executed
flushes and whether the process was aborted. -/
def runProcAux (headers : List String) (store : String → List String → Bool) :
    List (Nat × List Event) → List (Nat × String × List String)
      → List (Nat × String × List String) × Bool
  | [], acc => (acc, false)
  | (w, es) :: sched, acc =>
    match runCycleAux (placeholdersOf headers) (initCycle (queryOf headers))
        (es ++ [Event.timer]) with
    | none => (acc, false)
    | some s =>
      match flushOf s with
      | none => runProcAux headers store sched acc
      | some f =>
        if store f.1 f.2 then runProcAux headers store sched (acc ++ [(w, f.1, f.2)])
        else (acc ++ [(w, f.1, f.2)], true)

/-- The pool's execution from an empty flush trace. -/
def runProc (headers : List String) (store : String → List String → Bool)
    (sched : List (Nat × List Event)) : List (Nat × String × List String) × Bool :=
  runProcAux headers store sched []

/-- Every flush in the trace was accepted by the store. -/
def storeOkAll (store : String → List String → Bool)
    (trace : List (Nat × String × List String)) : Bool :=
  trace.all (fun f => store f.2.1 f.2.2)

/-- One `csv.Reader.Read` outcome: a row, end of input, or a read error. -/
inductive ReadResult where
  | ok (row : List String) : ReadResult
  | eof : ReadResult
  | err : ReadResult
deriving DecidableEq

/-- The read-and-send loop of `ProcessCSVFile` (main.go lines 214-229): at
most `maxLines` rows are sent; the loop breaks at the first non-ok read,
whether end-of-input or a read error; an exhausted result list behaves as
end-of-input. Returns the rows sent to the jobs channel. -/
def processRows (reads : List ReadResult) (maxLines : Nat) : List (List String) :=
  match maxLines, reads with
  | 0, _ => []
  | _ + 1, [] => []
  | n + 1, ReadResult.ok row :: rs => row :: processRows rs n
  | _ + 1, ReadResult.eof :: _ => []
  | _ + 1, ReadResult.err :: _ => []

/-- The outcome of ingestion: the rows sent, whether the jobs channel was
closed, and whether the process was aborted. -/
structure IngestResult where
  sent : List (List String)
  closed : Bool
  aborted : Bool
deriving DecidableEq

/-- `ProcessCSVFile` (main.go lines 212-232): sends up to `maxLines` rows,
stops at the first failing read (end-of-input or not), unconditionally
closes the jobs channel on exit, and has no fatal path. -/
def ProcessCSVFile (reads : List ReadResult) (maxLines : Nat) : IngestResult :=
  { sent := processRows reads maxLines, closed := true, aborted := false }

/-- The header-read step of `main` (main.go lines 66-70): a successful first
read becomes `dataHeaders`; on a read error the program neither aborts nor
stops, and `dataHeaders` keeps its zero value, the empty slice. The Bool is
the abort flag — `main` has no fatal path at this step. -/
def mainHeaderStep (firstRead : Option (List String)) : List String × Bool :=
  match firstRead with
  | some row => (row, false)
  | none => ([], false)

/-- A worker's state as seen by the shutdown protocol: the parameter values
of its in-flight batch, and whether it has exited. -/
structure WState where
  pending : List String
  exited : Bool

/-- The pool's state during shutdown: remaining quit tokens in the channel,
the workers, and the parameter vectors flushed so far. -/
structure PoolState where
  numWorkers : Nat
  tokens : Nat
  workers : Nat → WState
  flushes : List (List String)

/-- One worker finishing one cycle after the jobs channel is closed
(main.go lines 165-184): the worker flushes its pending non-empty batch,
then non-blockingly checks the quit channel: with a token available it
consumes one and exits (releasing its connection and decrementing the wait
group); otherwise it starts another cycle, which accumulates nothing from
the closed channel. -/
def poolStep (st : PoolState) (i : Nat) : PoolState :=
  if i < st.numWorkers then
    if (st.workers i).exited then st
    else
      if 0 < st.tokens then
        { st with tokens := st.tokens - 1,
                  workers := Function.update st.workers i ⟨[], true⟩,
                  flushes := if (st.workers i).pending = [] then st.flushes
                             else st.flushes ++ [(st.workers i).pending] }
      else
        { st with workers := Function.update st.workers i ⟨[], false⟩,
                  flushes := if (st.workers i).pending = [] then st.flushes
                             else st.flushes ++ [(st.workers i).pending] }
  else st

/-- Run a schedule of cycle completions, one worker index at a time. -/
def poolRun (st : PoolState) : List Nat → PoolState
  | [] => st
  | i :: sched => poolRun (poolStep st i) sched

/-- The state right after `StopWorkers` (main.go lines 203-208): `w` workers
are running with their in-flight batches, and exactly `w` quit tokens sit in
the buffered quit channel. -/
def initPool (w : Nat) (pendings : Nat → List String) : PoolState :=
  { numWorkers := w, tokens := w,
    workers := fun i => ⟨pendings i, false⟩,
    flushes := [] }

/-- `wg.Wait` returns exactly when every worker has decremented the wait
group, i.e. exited. -/
def wgWaitReturns (st : PoolState) : Bool :=
  (List.range st.numWorkers).all (fun i => (st.workers i).exited)

/-- Empty reads from a closed jobs channel are invisible to the inner loop:
as long as the loop has not reached an exit bound, any number of them may be
skipped. -/
theorem runCycleAux_skip_empty (p : String) (s : CycleState)
    (hnd : cycleDone s = false) :
    ∀ (n : Nat) (es : List Event),
      runCycleAux p s (List.replicate n (Event.job []) ++ es) = runCycleAux p s es := by
  intro n
  induction n with
  | zero => intro es; rfl
  | succ n ih =>
    intro es
    rw [List.replicate_succ]
    simp only [List.cons_append, runCycleAux]
    have hid : cycleStep p s (Event.job []) = s := by simp [cycleStep]
    rw [hid, hnd]
    simp only [Bool.false_eq_true, if_false]
    exact ih es

/-- C4 counterexample: in the scenario Header = ["a","b"], rows
[["1","2"],["3","4"]], one worker, exactly one flush occurs, but its
statement text is "INSERT INTO domain (a,b) VALUES (?,?), (?,?)" — the
uppercase keywords `StartWorkers`'s format string produces — which is not
the claimed lowercase "insert into domain (a,b) values (?,?), (?,?)". -/
theorem c4_counterexample :
    runWorker ["a","b"]
      [([Event.job ["1","2"], Event.job ["3","4"], Event.timer], true)]
      = some [("INSERT INTO domain (a,b) VALUES (?,?), (?,?)", ["1","2","3","4"])] ∧
    ("INSERT INTO domain (a,b) VALUES (?,?), (?,?)" : String)
      ≠ "insert into domain (a,b) values (?,?), (?,?)" :=
  ⟨by decide, by decide⟩

/-- C4 amended: with Header = ["a","b"], data rows [["1","2"],["3","4"]], a
single worker holding a quit token at its first cycle boundary, and any
number `n` of empty deliveries from the then-closed jobs channel before the
cycle timer fires, exactly one flush occurs, with statement text
"INSERT INTO domain (a,b) VALUES (?,?), (?,?)" and parameter vector
["1","2","3","4"]. -/
theorem c4_single_flush (n : Nat) :
    runWorker ["a","b"]
      [([Event.job ["1","2"], Event.job ["3","4"]] ++ List.replicate n (Event.job [])
          ++ [Event.timer], true)]
      = some [("INSERT INTO domain (a,b) VALUES (?,?), (?,?)", ["1","2","3","4"])] := by
  have hskip : runCycleAux (placeholdersOf ["a","b"])
      (CycleState.mk 2 "INSERT INTO domain (a,b) VALUES (?,?), (?,?)"
        ["1","2","3","4"] false)
      (List.replicate n (Event.job []) ++ [Event.timer])
      = some (CycleState.mk 2 "INSERT INTO domain (a,b) VALUES (?,?), (?,?)"
        ["1","2","3","4"] true) := by
    rw [runCycleAux_skip_empty _ _ (by decide)]
    decide
  have h1 : runCycle ["a","b"]
      ([Event.job ["1","2"], Event.job ["3","4"]] ++ List.replicate n (Event.job [])
        ++ [Event.timer])
      = some (CycleState.mk 2 "INSERT INTO domain (a,b) VALUES (?,?), (?,?)"
        ["1","2","3","4"] true) := by
    show runCycleAux (placeholdersOf ["a","b"])
      (CycleState.mk 2 "INSERT INTO domain (a,b) VALUES (?,?), (?,?)"
        ["1","2","3","4"] false)
      (List.replicate n (Event.job []) ++ [Event.timer]) = _
    exact hskip
  show runWorkerAux _ _ _ = _
  simp only [runWorkerAux]
  rw [h1]
  decide

theorem c4_single_flush_witness :
    runWorker ["a","b"]
      [([Event.job ["1","2"], Event.job ["3","4"]] ++ List.replicate 3 (Event.job [])
          ++ [Event.timer], true)]
      = some [("INSERT INTO domain (a,b) VALUES (?,?), (?,?)", ["1","2","3","4"])] :=
  c4_single_flush 3

/-- C7 counterexample: a worker parked on an empty, never-closed jobs queue
— its select only ever observes timer events — is terminated by delivering a
quit token alone: the cycle timer ends the cycle, the empty batch skips the
flush, and the token is consumed at the cycle boundary, so the worker exits
having flushed nothing. -/
theorem c7_counterexample :
    runWorker ["a"] [([Event.timer], true)] = some [] := by
  decide

/-- C7 amended: a quit token alone suffices to terminate a worker waiting on
an empty, never-closed jobs queue: every cycle ends within the timer window,
and at the first cycle boundary where the token is available the worker
exits, for any number `n` of tokenless timeout cycles before that. -/
theorem c7_token_alone_terminates (headers : List String) (n : Nat) :
    runWorker headers
      (List.replicate n ([Event.timer], false) ++ [([Event.timer], true)])
      = some [] := by
  induction n with
  | zero => rfl
  | succ n ih =>
    rw [List.replicate_succ, List.cons_append]
    show runWorkerAux headers
      (List.replicate n ([Event.timer], false) ++ [([Event.timer], true)]) [] = some []
    exact ih

theorem c7_token_alone_terminates_witness :
    runWorker ["a"]
      (List.replicate 2 ([Event.timer], false) ++ [([Event.timer], true)])
      = some [] :=
  c7_token_alone_terminates ["a"] 2

/-- Accumulator-generalised abort property of the pool's fatal-error
semantics. -/
theorem runProcAux_spec (headers : List String) (store : String → List String → Bool) :
    ∀ (sched : List (Nat × List Event)) (acc trace : List (Nat × String × List String))
      (ab : Bool),
      storeOkAll store acc = true →
      runProcAux headers store sched acc = (trace, ab) →
      (ab = false ∧ storeOkAll store trace = true) ∨
      (ab = true ∧ storeOkAll store trace.dropLast = true ∧
        trace.getLast?.map (fun f => store f.2.1 f.2.2) = some false) := by
  intro sched
  induction sched with
  | nil =>
    intro acc trace ab hok h
    simp only [runProcAux] at h
    cases h
    exact Or.inl ⟨rfl, hok⟩
  | cons entry sched ih =>
    intro acc trace ab hok h
    obtain ⟨w, es⟩ := entry
    simp only [runProcAux] at h
    split at h
    · cases h; exact Or.inl ⟨rfl, hok⟩
    · split at h
      · exact ih acc trace ab hok h
      · rename_i s hs f hf
        split at h
        · rename_i hstore
          refine ih _ trace ab ?_ h
          simp only [storeOkAll, List.all_append, List.all_cons, List.all_nil,
            Bool.and_eq_true] at hok ⊢
          exact ⟨hok, hstore, trivial⟩
        · rename_i hstore
          cases h
          refine Or.inr ⟨rfl, ?_, ?_⟩
          · rw [List.dropLast_concat]
            exact hok
          · rw [List.getLast?_concat]
            have hsf : store f.1 f.2 = false := by
              cases hb : store f.1 f.2
              · rfl
              · exact absurd hb hstore
            simp [hsf]

/-- C5: If a flush's store execution fails, the whole process is aborted at
that point: every flush before it in the whole multi-worker trace succeeded,
the failing flush is the very last store call of the run (no further flush
from any worker, no retry of the failing statement), and the run reports the
abort; conversely a non-aborted run had every store call succeed. -/
theorem c5_store_error_fatal (headers : List String)
    (store : String → List String → Bool) (sched : List (Nat × List Event))
    (trace : List (Nat × String × List String)) (ab : Bool)
    (h : runProc headers store sched = (trace, ab)) :
    (ab = false ∧ storeOkAll store trace = true) ∨
    (ab = true ∧ storeOkAll store trace.dropLast = true ∧
      trace.getLast?.map (fun f => store f.2.1 f.2.2) = some false) :=
  runProcAux_spec headers store sched [] trace ab rfl h

theorem c5_store_error_fatal_witness :
    (true = false ∧
      storeOkAll (fun _ _ => false)
        [(0, "INSERT INTO domain (a) VALUES (?)", ["x"])] = true) ∨
    (true = true ∧
      storeOkAll (fun _ _ => false)
        ([(0, "INSERT INTO domain (a) VALUES (?)", ["x"])]).dropLast = true ∧
      ([(0, "INSERT INTO domain (a) VALUES (?)", ["x"])]).getLast?.map
        (fun f => (fun (_ : String) (_ : List String) => false) f.2.1 f.2.2)
        = some false) :=
  c5_store_error_fatal ["a"] (fun _ _ => false)
    [(0, [Event.job ["x"]]), (1, [Event.job ["y"]])]
    [(0, "INSERT INTO domain (a) VALUES (?)", ["x"])] true (by decide)

/-- C8: A non-end-of-input read error behaves exactly like end-of-input:
ingestion stops there (whatever either source yields afterwards), no
further record is sent, the jobs channel is still closed, the process is
not aborted; and in every case at most `maxLines` records are sent. -/
theorem c8_read_error_stops (pre rest rest' reads : List ReadResult) (n : Nat) :
    ProcessCSVFile (pre ++ ReadResult.err :: rest) n
      = ProcessCSVFile (pre ++ ReadResult.eof :: rest') n ∧
    (ProcessCSVFile reads n).sent.length ≤ n ∧
    (ProcessCSVFile reads n).closed = true ∧
    (ProcessCSVFile reads n).aborted = false := by
  refine ⟨?_, ?_, rfl, rfl⟩
  · have key : ∀ (p : List ReadResult) (m : Nat),
        processRows (p ++ ReadResult.err :: rest) m
          = processRows (p ++ ReadResult.eof :: rest') m := by
      intro p
      induction p with
      | nil =>
        intro m
        cases m with
        | zero => rfl
        | succ m => rfl
      | cons r rs ih =>
        intro m
        cases m with
        | zero => rfl
        | succ m =>
          cases r with
          | ok row =>
            show row :: processRows (rs ++ ReadResult.err :: rest) m
              = row :: processRows (rs ++ ReadResult.eof :: rest') m
            exact congrArg (List.cons row) (ih m)
          | eof => rfl
          | err => rfl
    unfold ProcessCSVFile
    rw [key pre n]
  · have key : ∀ (rs : List ReadResult) (m : Nat), (processRows rs m).length ≤ m := by
      intro rs
      induction rs with
      | nil =>
        intro m
        cases m with
        | zero => exact Nat.le_refl 0
        | succ m => exact Nat.zero_le _
      | cons r rs ih =>
        intro m
        cases m with
        | zero => exact Nat.le_refl 0
        | succ m =>
          cases r with
          | ok row =>
            show (row :: processRows rs m).length ≤ m + 1
            simp only [List.length_cons]
            exact Nat.succ_le_succ (ih m)
          | eof => exact Nat.zero_le _
          | err => exact Nat.zero_le _
    exact key reads n

theorem c8_read_error_stops_witness :
    ProcessCSVFile ([ReadResult.ok ["x"]] ++ ReadResult.err :: [ReadResult.ok ["y"]]) 1
      = ProcessCSVFile ([ReadResult.ok ["x"]] ++ ReadResult.eof :: ([] : List ReadResult)) 1 ∧
    (ProcessCSVFile [ReadResult.ok ["x"], ReadResult.ok ["y"]] 1).sent.length ≤ 1 ∧
    (ProcessCSVFile [ReadResult.ok ["x"], ReadResult.ok ["y"]] 1).closed = true ∧
    (ProcessCSVFile [ReadResult.ok ["x"], ReadResult.ok ["y"]] 1).aborted = false :=
  c8_read_error_stops [ReadResult.ok ["x"]] [ReadResult.ok ["y"]] []
    [ReadResult.ok ["x"], ReadResult.ok ["y"]] 1

/-- C10: When reading the very first source record (the header) fails, the
program neither aborts nor stops: it continues with the empty header, and
the dispatcher builds the prefix "INSERT INTO domain () VALUES ()" with an
empty column list and an empty placeholder group. -/
theorem c10_empty_header_prefix :
    mainHeaderStep none = ([], false) ∧
    queryOf (mainHeaderStep none).1 = "INSERT INTO domain () VALUES ()" ∧
    placeholdersOf (mainHeaderStep none).1 = "" :=
  ⟨rfl, rfl, rfl⟩

/-! ### Shutdown protocol lemmas (C2) -/

theorem bool_eq_false (b : Bool) (h : ¬ b = true) : b = false := by
  cases b
  · rfl
  · exact absurd rfl h

/-- The set of still-active (not yet exited) worker indices. -/
def activeSet (st : PoolState) : Finset Nat :=
  (Finset.range st.numWorkers).filter (fun i => (st.workers i).exited = false)

/-- The shutdown-state correctness predicate: worker count fixed at `w`, the
token count mirrors the number of still-active workers (`StopWorkers` put
one token per worker in the buffered channel, and each exit consumes exactly
one), and every worker is either untouched with its original in-flight
batch, or has exited with that batch flushed. -/
def poolGood (w : Nat) (pendings : Nat → List String) (st : PoolState) : Prop :=
  st.numWorkers = w ∧ st.tokens = (activeSet st).card ∧
  ∀ i, i < w →
    (st.workers i = ⟨pendings i, false⟩) ∨
    ((st.workers i).exited = true ∧ (pendings i ≠ [] → pendings i ∈ st.flushes))

theorem poolStep_numWorkers (st : PoolState) (i : Nat) :
    (poolStep st i).numWorkers = st.numWorkers := by
  unfold poolStep
  split
  · split
    · rfl
    · split
      · rfl
      · rfl
  · rfl

theorem poolStep_other (st : PoolState) (i j : Nat) (hne : j ≠ i) :
    (poolStep st i).workers j = st.workers j := by
  unfold poolStep
  split
  · split
    · rfl
    · split
      · exact Function.update_noteq hne _ _
      · exact Function.update_noteq hne _ _
  · rfl

theorem poolStep_flushes_mono (st : PoolState) (i : Nat) (f : List String)
    (h : f ∈ st.flushes) : f ∈ (poolStep st i).flushes := by
  unfold poolStep
  split
  · split
    · exact h
    · split
      · show f ∈ (if (st.workers i).pending = [] then st.flushes
                  else st.flushes ++ [(st.workers i).pending])
        split
        · exact h
        · exact List.mem_append_left _ h
      · show f ∈ (if (st.workers i).pending = [] then st.flushes
                  else st.flushes ++ [(st.workers i).pending])
        split
        · exact h
        · exact List.mem_append_left _ h
  · exact h

theorem poolStep_exited_mono (st : PoolState) (i j : Nat)
    (h : (st.workers j).exited = true) :
    ((poolStep st i).workers j).exited = true := by
  by_cases hne : j = i
  · subst hne
    by_cases hj : j < st.numWorkers
    · unfold poolStep
      rw [if_pos hj, if_pos h]
      exact h
    · unfold poolStep
      rw [if_neg hj]
      exact h
  · rw [poolStep_other st i j hne]
    exact h

/-- An active scheduled worker exits: under the token invariant there is a
token left for it, so its cycle completion flushes its pending batch,
consumes one token, and marks it exited. -/
theorem poolStep_active_exits (st : PoolState) (i : Nat)
    (hinv : st.tokens = (activeSet st).card)
    (hi : i < st.numWorkers) (hex : (st.workers i).exited = false) :
    (poolStep st i).workers i = ⟨[], true⟩ ∧
    ((st.workers i).pending ≠ [] →
      (st.workers i).pending ∈ (poolStep st i).flushes) ∧
    (poolStep st i).tokens = st.tokens - 1 := by
  have hmem : i ∈ activeSet st := by
    simp only [activeSet, Finset.mem_filter, Finset.mem_range]
    exact ⟨hi, hex⟩
  have hpos : 0 < st.tokens := by
    rw [hinv]
    exact Finset.card_pos.mpr ⟨i, hmem⟩
  unfold poolStep
  rw [if_pos hi, if_neg (by simp [hex]), if_pos hpos]
  refine ⟨Function.update_same i _ _, ?_, rfl⟩
  intro hp
  show (st.workers i).pending ∈ (if (st.workers i).pending = [] then st.flushes
    else st.flushes ++ [(st.workers i).pending])
  rw [if_neg hp]
  exact List.mem_append_right _ (List.mem_singleton.mpr rfl)

theorem poolStep_good (w : Nat) (pendings : Nat → List String) (st : PoolState)
    (j : Nat) (hg : poolGood w pendings st) : poolGood w pendings (poolStep st j) := by
  obtain ⟨hw, hinv, hstat⟩ := hg
  by_cases hj : j < st.numWorkers
  · by_cases hex : (st.workers j).exited = true
    · have hid : poolStep st j = st := by
        unfold poolStep
        rw [if_pos hj, if_pos hex]
      rw [hid]
      exact ⟨hw, hinv, hstat⟩
    · have hex' : (st.workers j).exited = false := bool_eq_false _ hex
      obtain ⟨hwj, hfl, htok⟩ := poolStep_active_exits st j hinv hj hex'
      refine ⟨by rw [poolStep_numWorkers]; exact hw, ?_, ?_⟩
      · rw [htok, hinv]
        have hset : activeSet (poolStep st j) = (activeSet st).erase j := by
          ext k
          simp only [activeSet, Finset.mem_filter, Finset.mem_range, Finset.mem_erase,
            poolStep_numWorkers]
          constructor
          · rintro ⟨hk, hke⟩
            by_cases hkj : k = j
            · subst hkj
              rw [hwj] at hke
              simp at hke
            · rw [poolStep_other st j k hkj] at hke
              exact ⟨hkj, hk, hke⟩
          · rintro ⟨hkj, hk, hke⟩
            refine ⟨hk, ?_⟩
            rw [poolStep_other st j k hkj]
            exact hke
        rw [hset, Finset.card_erase_of_mem]
        simp only [activeSet, Finset.mem_filter, Finset.mem_range]
        exact ⟨hj, hex'⟩
      · intro i hi
        by_cases hij : i = j
        · subst hij
          right
          refine ⟨by rw [hwj], ?_⟩
          intro hp
          rcases hstat i hi with hst | hst
          · have hpend : (st.workers i).pending = pendings i := by rw [hst]
            have hmemf := hfl (by rw [hpend]; exact hp)
            rw [hpend] at hmemf
            exact hmemf
          · exact absurd hst.1 (by simp [hex'])
        · rcases hstat i hi with hst | hst
          · left
            rw [poolStep_other st j i hij]
            exact hst
          · right
            exact ⟨poolStep_exited_mono st j i hst.1,
              fun hp => poolStep_flushes_mono st j _ (hst.2 hp)⟩
  · have hid : poolStep st j = st := by
      unfold poolStep
      rw [if_neg hj]
    rw [hid]
    exact ⟨hw, hinv, hstat⟩

theorem poolRun_good (w : Nat) (pendings : Nat → List String) :
    ∀ (sched : List Nat) (st : PoolState), poolGood w pendings st →
      poolGood w pendings (poolRun st sched) := by
  intro sched
  induction sched with
  | nil => intro st hg; exact hg
  | cons j rest ih =>
    intro st hg
    exact ih _ (poolStep_good w pendings st j hg)

theorem poolRun_exited_mono :
    ∀ (sched : List Nat) (st : PoolState) (i : Nat),
      (st.workers i).exited = true → ((poolRun st sched).workers i).exited = true := by
  intro sched
  induction sched with
  | nil => intro st i h; exact h
  | cons j rest ih =>
    intro st i h
    exact ih _ i (poolStep_exited_mono st j i h)

theorem poolRun_exited_of_mem (w : Nat) (pendings : Nat → List String) :
    ∀ (sched : List Nat) (st : PoolState), poolGood w pendings st →
      ∀ i ∈ sched, i < w → ((poolRun st sched).workers i).exited = true := by
  intro sched
  induction sched with
  | nil =>
    intro st _ i hmem
    simp at hmem
  | cons j rest ih =>
    intro st hg i hmem hi
    rcases List.mem_cons.mp hmem with heq | hmem2
    · subst heq
      have hstep : ((poolStep st i).workers i).exited = true := by
        by_cases hex : (st.workers i).exited = true
        · exact poolStep_exited_mono st i i hex
        · have hex' := bool_eq_false _ hex
          have hj : i < st.numWorkers := by rw [hg.1]; exact hi
          obtain ⟨hwj, _, _⟩ := poolStep_active_exits st i hg.2.1 hj hex'
          rw [hwj]
      exact poolRun_exited_mono rest _ i hstep
    · exact ih (poolStep st j) (poolStep_good w pendings st j hg) i hmem2 hi

/-- C2: With exactly `w` quit tokens enqueued for `w` workers after the jobs
channel is closed, every schedule in which each worker completes at least
one more cycle ends with every worker having consumed one token and exited:
the wait-group join returns, all `w` tokens are consumed, and each worker's
pending non-empty batch is among the flushes when the join returns. -/
theorem c2_shutdown_drains (w : Nat) (pendings : Nat → List String) (sched : List Nat)
    (hall : ∀ i, i < w → i ∈ sched) :
    wgWaitReturns (poolRun (initPool w pendings) sched) = true ∧
    (poolRun (initPool w pendings) sched).tokens = 0 ∧
    ∀ i, i < w → pendings i ≠ [] →
      pendings i ∈ (poolRun (initPool w pendings) sched).flushes := by
  have hg0 : poolGood w pendings (initPool w pendings) := by
    refine ⟨rfl, ?_, ?_⟩
    · simp [initPool, activeSet]
    · intro i _
      left
      rfl
  have hgf := poolRun_good w pendings sched _ hg0
  have hex : ∀ i, i < w →
      ((poolRun (initPool w pendings) sched).workers i).exited = true :=
    fun i hi => poolRun_exited_of_mem w pendings sched _ hg0 i (hall i hi) hi
  refine ⟨?_, ?_, ?_⟩
  · unfold wgWaitReturns
    rw [List.all_eq_true]
    intro i hmem
    have hi := List.mem_range.mp hmem
    rw [hgf.1] at hi
    exact hex i hi
  · have hempty : activeSet (poolRun (initPool w pendings) sched) = ∅ := by
      ext k
      simp only [activeSet, Finset.mem_filter, Finset.mem_range, Finset.not_mem_empty,
        iff_false, not_and]
      intro hk
      rw [hgf.1] at hk
      rw [hex k hk]
      simp
    rw [hgf.2.1, hempty, Finset.card_empty]
  · intro i hi hp
    rcases hgf.2.2 i hi with hst | hst
    · have hfalse : ((poolRun (initPool w pendings) sched).workers i).exited = false := by
        rw [hst]
      rw [hex i hi] at hfalse
      exact absurd hfalse (by simp)
    · exact hst.2 hp

theorem c2_shutdown_drains_witness :
    wgWaitReturns
      (poolRun (initPool 2 (fun i => if i = 0 then ["r1","r2"] else [])) [1, 0]) = true ∧
    (poolRun (initPool 2 (fun i => if i = 0 then ["r1","r2"] else [])) [1, 0]).tokens = 0 ∧
    ∀ i, i < 2 → (fun i => if i = 0 then ["r1","r2"] else []) i ≠ [] →
      (fun i => if i = 0 then ["r1","r2"] else []) i
        ∈ (poolRun (initPool 2 (fun i => if i = 0 then ["r1","r2"] else []))
            [1, 0]).flushes :=
  c2_shutdown_drains 2 (fun i => if i = 0 then ["r1","r2"] else []) [1, 0] (by decide)

end GoMysqlWorker
